import Mathlib

/-!
Verification of the sparse operator family of `pytensor/sparse/basic.py`.

The Python source manipulates scipy CSR/CSC matrices: a matrix is a
format tag, a dtype, a shape pair, a `data` vector, a same-length
minor-index vector `indices`, and a pointer vector `indptr`.  We embed
such a matrix as `SciSparse` with rational data (the numeric library's
arrays become Lean lists; machine dtypes are tracked as strings, the
value-level arithmetic is exact).  Each `*_perform` definition below is
a direct translation of the corresponding `perform` method of the
source; fallible methods return `Except`.
-/

namespace PyTensorSparse

/-- Storage format of a scipy sparse matrix (`"csr"` or `"csc"` in the source). -/
inductive SpFormat
  | csr
  | csc
  deriving DecidableEq, Inhabited

/-- A scipy CSR/CSC matrix as the source's `perform` methods see it:
`.data`, `.indices`, `.indptr`, `.shape`, plus format and dtype tags. -/
structure SciSparse where
  format : SpFormat
  dtype : String
  shape : ℕ × ℕ
  data : List ℚ
  indices : List ℕ
  indptr : List ℕ
  deriving DecidableEq, Inhabited

/-- Python `range(lo, hi)`: the list `[lo, lo+1, ..., hi-1]`, empty when `hi ≤ lo`. -/
def rangeFromTo (lo hi : ℕ) : List ℕ := List.range' lo (hi - lo)

/-! ## CSMProperties / CSM (extract-properties and construct-from-parts) -/

/-- Embeds `CSMProperties.perform`: returns `(data, indices, indptr, shape)`
of the input matrix.  The data array keeps its dtype (the source's int32
re-cast of an int32 array is value-preserving); indices, indptr and shape
are cast to int32, which is value-preserving for indices that fit, so they
stay plain naturals here. -/
def CSMProperties_perform (csm : SciSparse) :
    (List ℚ × String) × List ℕ × List ℕ × List ℕ :=
  ((csm.data, csm.dtype), csm.indices, csm.indptr, [csm.shape.1, csm.shape.2])

/-- Embeds `CSM.perform`: validates the shape length and the data/indices
length agreement, then builds the scipy matrix from the parts (the scipy
constructor with `copy=False` wraps the given arrays without reordering). -/
def CSM_perform (format : SpFormat) (data : List ℚ) (ddtype : String)
    (indices indptr _shape : List ℕ) : Except String SciSparse :=
  if _shape.length ≠ 2 then
    .error "Shape should be an array of length 2"
  else if data.length ≠ indices.length then
    .error "Data must have the same number of elements as indices"
  else
    .ok { format := format, dtype := ddtype,
          shape := (_shape.getD 0 0, _shape.getD 1 0),
          data := data, indices := indices, indptr := indptr }

/-- Embeds `CSM.connection_pattern`. -/
def CSM_connection_pattern : List (List Bool) := [[true], [false], [false], [false]]

/-- Embeds the evaluation of the expression returned by `CSMProperties.grad`
when the data-gradient is connected: re-extract the input's properties and
repack the incoming data-gradient `g0` with the original pattern through
`CSM(csm.format)`. -/
def CSMProperties_grad_eval (M : SciSparse) (g0 : List ℚ) (g0dtype : String) :
    Except String SciSparse :=
  let p := CSMProperties_perform M
  CSM_perform M.format g0 g0dtype p.2.1 p.2.2.1 p.2.2.2

/-- C1: for every sparse matrix `M` in csr or csc format (scipy invariant:
data and indices have the same length), constructing from the four extracted
properties returns exactly `M`: same data, indices, pointer and shape. -/
theorem csm_roundtrip (M : SciSparse) (h : M.data.length = M.indices.length) :
    (let p := CSMProperties_perform M
     CSM_perform M.format p.1.1 p.1.2 p.2.1 p.2.2.1 p.2.2.2) = Except.ok M := by
  cases M with
  | mk format dtype shape data indices indptr =>
    simp [CSMProperties_perform, CSM_perform, h]

/-- Witness for `csm_roundtrip` at a concrete csr matrix. -/
theorem csm_roundtrip_witness :
    (let M : SciSparse :=
      { format := .csr, dtype := "float64", shape := (2, 2),
        data := [1, 2, 3], indices := [0, 1, 0], indptr := [0, 2, 3] }
     let p := CSMProperties_perform M
     CSM_perform M.format p.1.1 p.1.2 p.2.1 p.2.2.1 p.2.2.2 = Except.ok M) :=
  csm_roundtrip _ (by decide)

/-- C7: `CSM.perform` errors exactly when the shape parameter does not have
2 elements or the data and indices vectors have different lengths; on all
other inputs it returns the sparse matrix of the declared format built from
the four parts. -/
theorem csm_perform_validation (format : SpFormat) (data : List ℚ) (ddtype : String)
    (indices indptr _shape : List ℕ) :
    ((_shape.length ≠ 2 ∨ data.length ≠ indices.length) →
      ∃ msg, CSM_perform format data ddtype indices indptr _shape = .error msg)
    ∧ (_shape.length = 2 → data.length = indices.length →
      CSM_perform format data ddtype indices indptr _shape =
        .ok { format := format, dtype := ddtype,
              shape := (_shape.getD 0 0, _shape.getD 1 0),
              data := data, indices := indices, indptr := indptr }) := by
  constructor
  · intro h
    rcases h with h | h
    · exact ⟨"Shape should be an array of length 2", by simp [CSM_perform, h]⟩
    · by_cases h2 : _shape.length = 2
      · exact ⟨"Data must have the same number of elements as indices",
          by simp [CSM_perform, h2, h]⟩
      · exact ⟨"Shape should be an array of length 2", by simp [CSM_perform, h2]⟩
  · intro h1 h2
    simp [CSM_perform, h1, h2]

/-- Witness for `csm_perform_validation`: a bad-shape input is rejected and a
good input is accepted. -/
theorem csm_perform_validation_witness :
    (∃ msg, CSM_perform .csr [(1 : ℚ)] "float64" [0] [0, 1] [3] = .error msg)
    ∧ CSM_perform .csc [(1 : ℚ)] "float64" [0] [0, 1] [1, 1] =
        .ok { format := .csc, dtype := "float64", shape := (1, 1),
              data := [1], indices := [0], indptr := [0, 1] } :=
  ⟨(csm_perform_validation .csr [(1 : ℚ)] "float64" [0] [0, 1] [3]).1
      (Or.inl (by decide)),
   (csm_perform_validation .csc [(1 : ℚ)] "float64" [0] [0, 1] [1, 1]).2
      (by decide) (by decide)⟩

/-- C4: the gradient of extract-properties, evaluated on a matrix `M` and an
incoming data-gradient, is construct-from-parts of (incoming data-gradient,
original indices, original pointer, original shape) in `M`'s format; and
`CSM.connection_pattern` declares indices, pointer and shape disconnected,
so construct-from-parts propagates no gradient to them. -/
theorem csmproperties_grad_repacks (M : SciSparse) (g0 : List ℚ) (g0dtype : String)
    (h : g0.length = M.indices.length) :
    CSMProperties_grad_eval M g0 g0dtype =
      .ok { format := M.format, dtype := g0dtype, shape := M.shape,
            data := g0, indices := M.indices, indptr := M.indptr }
    ∧ CSM_connection_pattern = [[true], [false], [false], [false]] := by
  refine ⟨?_, rfl⟩
  cases M with
  | mk format dtype shape data indices indptr =>
    simp [CSMProperties_grad_eval, CSMProperties_perform, CSM_perform, h]

/-- Witness for `csmproperties_grad_repacks` at a concrete matrix. -/
theorem csmproperties_grad_repacks_witness :
    CSMProperties_grad_eval
      { format := .csr, dtype := "float64", shape := (2, 2),
        data := [5, 7], indices := [1, 0], indptr := [0, 1, 2] }
      [10, 20] "float32" =
      .ok { format := .csr, dtype := "float32", shape := (2, 2),
            data := [10, 20], indices := [1, 0], indptr := [0, 1, 2] } :=
  (csmproperties_grad_repacks
    { format := .csr, dtype := "float64", shape := (2, 2),
      data := [5, 7], indices := [1, 0], indptr := [0, 1, 2] }
    [10, 20] "float32" (by decide)).1

/-! ## Dense meaning of a sparse matrix, dense matrices and their product

Dense matrices are lists of rows.  `toDenseEntry` is the value of a scipy
CSR/CSC matrix at a dense position: the sum of the stored data over the
stored occurrences of that position (scipy sums duplicate entries). -/

/-- Value of the sparse matrix at dense position `(i, j)`. -/
def toDenseEntry (M : SciSparse) (i j : ℕ) : ℚ :=
  match M.format with
  | .csr =>
      (((rangeFromTo (M.indptr.getD i 0) (M.indptr.getD (i + 1) 0)).filter
          (fun p => M.indices.getD p 0 = j)).map (fun p => M.data.getD p 0)).sum
  | .csc =>
      (((rangeFromTo (M.indptr.getD j 0) (M.indptr.getD (j + 1) 0)).filter
          (fun p => M.indices.getD p 0 = i)).map (fun p => M.data.getD p 0)).sum

/-- The dense array `M.toarray()` as a list of rows. -/
def toDenseMat (M : SciSparse) : List (List ℚ) :=
  (List.range M.shape.1).map (fun i =>
    (List.range M.shape.2).map (fun j => toDenseEntry M i j))

/-- Column count of a dense matrix (its first row's length, 0 when empty). -/
def ncols (m : List (List ℚ)) : ℕ := (m.getD 0 []).length

/-- Entry `(i, j)` of the matrix product `M ⬝ N` (inner dimension `N.length`). -/
def matMulEntry (M N : List (List ℚ)) (i j : ℕ) : ℚ :=
  ((List.range N.length).map
    (fun k => (M.getD i []).getD k 0 * (N.getD k []).getD j 0)).sum

/-- The matrix product `M ⬝ N` as a dense matrix. -/
def matMulM (M N : List (List ℚ)) : List (List ℚ) :=
  (List.range M.length).map (fun i =>
    (List.range (ncols N)).map (fun j => matMulEntry M N i j))

/-! ## StructuredDot evaluation (dense right operand) -/

/-- Embeds `StructuredDot.perform` for a sparse left operand and dense right
operand: raises a ValueError carrying both operand shapes when the inner
dimensions disagree, otherwise delegates the product `a * b` to the numeric
library (an external primitive: the sparse-dense matrix product). -/
def StructuredDot_perform (a : SciSparse) (b : List (List ℚ)) :
    Except ((ℕ × ℕ) × (ℕ × ℕ)) (List (List ℚ)) :=
  if a.shape.2 ≠ b.length then
    .error (a.shape, (b.length, ncols b))
  else
    .ok (matMulM (toDenseMat a) b)

/-- C8: evaluating structured_dot errors exactly on inner-dimension mismatch,
the error carries the two offending operand shapes, and on agreeing inner
dimensions it returns the product, a matrix with the left operand's row
count. -/
theorem structureddot_shape_error (a : SciSparse) (b : List (List ℚ)) :
    (a.shape.2 ≠ b.length →
      StructuredDot_perform a b = .error (a.shape, (b.length, ncols b)))
    ∧ (a.shape.2 = b.length →
      StructuredDot_perform a b = .ok (matMulM (toDenseMat a) b)
      ∧ (matMulM (toDenseMat a) b).length = a.shape.1
      ∧ ∀ r ∈ matMulM (toDenseMat a) b, r.length = ncols b) := by
  constructor
  · intro h
    simp [StructuredDot_perform, h]
  · intro h
    refine ⟨by simp [StructuredDot_perform, h], ?_, ?_⟩
    · simp [matMulM, toDenseMat]
    · intro r hr
      simp only [matMulM, List.mem_map] at hr
      obtain ⟨i, _, rfl⟩ := hr
      simp

/-- Witness for `structureddot_shape_error`: a 1×2 csr matrix against a
1-row dense matrix errors with the shapes; against a 2-row dense matrix it
evaluates. -/
theorem structureddot_shape_error_witness :
    (StructuredDot_perform
        { format := .csr, dtype := "float64", shape := (1, 2),
          data := [1, 2], indices := [0, 1], indptr := [0, 2] }
        [[5, 6]] = .error ((1, 2), (1, 2)))
    ∧ (StructuredDot_perform
        { format := .csr, dtype := "float64", shape := (1, 2),
          data := [1, 2], indices := [0, 1], indptr := [0, 2] }
        [[5], [7]] =
          .ok (matMulM
            (toDenseMat
              { format := .csr, dtype := "float64", shape := (1, 2),
                data := [1, 2], indices := [0, 1], indptr := [0, 2] })
            [[5], [7]])) :=
  ⟨(structureddot_shape_error _ [[5, 6]]).1 (by decide),
   ((structureddot_shape_error _ [[5], [7]]).2 (by decide)).1⟩

/-! ## SparseConstantSignature -/

/-- The part of the PyTensor `SparseTensorType` that the signature comparison
consults through `a == x`. -/
structure SparseTensorTypeE where
  format : SpFormat
  dtype : String
  deriving DecidableEq

/-- A `SparseConstant.signature()`: the pair of the constant's type and its
scipy matrix. -/
structure SparseConstantSig where
  ty : SparseTensorTypeE
  m : SciSparse

/-- The `.nnz` of a scipy CSR/CSC matrix: the number of stored entries. -/
def nnz (M : SciSparse) : ℕ := M.data.length

/-- The quantity `abs(b - y).sum()`: the sum over all dense positions (`b.shape`, checked
equal to `y.shape` before this is evaluated) of the absolute difference of
the two matrices' values. -/
def absDiffSum (b y : SciSparse) : ℚ :=
  ((List.range b.shape.1).map (fun i =>
    ((List.range b.shape.2).map
      (fun j => |toDenseEntry b i j - toDenseEntry y i j|)).sum)).sum

/-- Embeds `SparseConstantSignature.__eq__`: `(a, b) == (x, y)` iff `a == x`,
`b.dtype == y.dtype`, `type(b) is type(y)` (same scipy format class),
`b.shape == y.shape`, and `abs(b - y).sum() < 1e-6 * b.nnz`. -/
def sigEq (s t : SparseConstantSig) : Bool :=
  decide (s.ty = t.ty) && decide (s.m.dtype = t.m.dtype)
    && decide (s.m.format = t.m.format) && decide (s.m.shape = t.m.shape)
    && decide (absDiffSum s.m t.m < (1 / 1000000 : ℚ) * nnz s.m)

theorem absDiffSum_nonneg (b y : SciSparse) : 0 ≤ absDiffSum b y := by
  refine List.sum_nonneg ?_
  intro x hx
  simp only [List.mem_map] at hx
  obtain ⟨i, _, rfl⟩ := hx
  refine List.sum_nonneg ?_
  intro z hz
  simp only [List.mem_map] at hz
  obtain ⟨j, _, rfl⟩ := hz
  exact abs_nonneg _

/-- C5: two sparse constant signatures compare equal iff same type, same
dtype, same shape, and the sum of absolute elementwise differences is below
`1e-6` times the (left constant's) stored-entry count.  The hypotheses are
the `SparseConstant` invariant that the stored matrix's format matches its
type's format. -/
theorem sigEq_characterization (s t : SparseConstantSig)
    (hs : s.m.format = s.ty.format) (ht : t.m.format = t.ty.format) :
    sigEq s t = true ↔
      (s.ty = t.ty ∧ s.m.dtype = t.m.dtype ∧ s.m.shape = t.m.shape
        ∧ absDiffSum s.m t.m < (1 / 1000000 : ℚ) * nnz s.m) := by
  simp only [sigEq, Bool.and_eq_true, decide_eq_true_eq]
  constructor
  · rintro ⟨⟨⟨⟨h1, h2⟩, _⟩, h4⟩, h5⟩
    exact ⟨h1, h2, h4, h5⟩
  · rintro ⟨h1, h2, h4, h5⟩
    exact ⟨⟨⟨⟨h1, h2⟩, by rw [hs, ht, h1]⟩, h4⟩, h5⟩

/-- Witness for `sigEq_characterization`: two equal-typed 1×1 constants whose
values differ by less than the tolerance compare equal. -/
theorem sigEq_characterization_witness :
    sigEq ⟨⟨.csr, "float64"⟩,
        { format := .csr, dtype := "float64", shape := (1, 1),
          data := [0, 0], indices := [0, 0], indptr := [0, 2] }⟩
      ⟨⟨.csr, "float64"⟩,
        { format := .csr, dtype := "float64", shape := (1, 1),
          data := [0], indices := [0], indptr := [0, 1] }⟩ = true :=
  (sigEq_characterization _ _ rfl rfl).2 ⟨rfl, rfl, rfl,
    by norm_num [absDiffSum, toDenseEntry, rangeFromTo, nnz, List.range',
      List.range_succ, abs_of_nonneg]⟩

/-- C10: the tolerance is scaled by the left signature's stored-entry count
only; consequently the comparison is not symmetric (a concrete pair compares
equal one way and unequal the other) and any signature whose matrix stores
zero entries is unequal to every signature, itself included. -/
theorem sigEq_left_nnz_asymmetric :
    (∀ s t : SparseConstantSig, s.ty = t.ty → s.m.dtype = t.m.dtype →
      s.m.format = t.m.format → s.m.shape = t.m.shape →
      (sigEq s t = true ↔ absDiffSum s.m t.m < (1 / 1000000 : ℚ) * nnz s.m))
    ∧ (∃ s t : SparseConstantSig, sigEq s t = true ∧ sigEq t s = false)
    ∧ (∀ s t : SparseConstantSig, nnz s.m = 0 → sigEq s t = false) := by
  refine ⟨?_, ?_, ?_⟩
  · intro s t h1 h2 h3 h4
    simp [sigEq, h1, h2, h3, h4]
  · refine ⟨⟨⟨.csr, "float64"⟩,
      { format := .csr, dtype := "float64", shape := (1, 2),
        data := [0, 3 / 2000000], indices := [0, 1], indptr := [0, 2] }⟩,
      ⟨⟨.csr, "float64"⟩,
      { format := .csr, dtype := "float64", shape := (1, 2),
        data := [0], indices := [0], indptr := [0, 1] }⟩,
      by norm_num [sigEq, absDiffSum, toDenseEntry, rangeFromTo, nnz,
        List.range', List.range_succ, abs_of_nonneg],
      by norm_num [sigEq, absDiffSum, toDenseEntry, rangeFromTo, nnz,
        List.range', List.range_succ, abs_of_nonneg]⟩
  · intro s t h
    simp only [sigEq, h, Bool.and_eq_false_iff]
    right
    simp only [decide_eq_false_iff_not, not_lt, Nat.cast_zero, mul_zero]
    exact absDiffSum_nonneg s.m t.m

/-- Witness for `sigEq_left_nnz_asymmetric`: an empty constant compares
unequal to an identical copy of itself. -/
theorem sigEq_left_nnz_asymmetric_witness :
    sigEq ⟨⟨.csr, "float64"⟩,
        { format := .csr, dtype := "float64", shape := (1, 1),
          data := [], indices := [], indptr := [0, 0] }⟩
      ⟨⟨.csr, "float64"⟩,
        { format := .csr, dtype := "float64", shape := (1, 1),
          data := [], indices := [], indptr := [0, 0] }⟩ = false :=
  sigEq_left_nnz_asymmetric.2.2 _ _ rfl

/-! ## SpSum and the public sp_sum entry point -/

/-- The configuration of a `SpSum` node: the axis and the
structured-gradient flag (`self.structured = sparse_grad`). -/
structure SpSumOp where
  axis : Option ℕ
  structured : Bool
  deriving DecidableEq

/-- Embeds `SpSum.__init__`: validates `axis ∈ {None, 0, 1}` and stores the
`sparse_grad` flag as `self.structured`. -/
def SpSum_init (axis : Option ℕ) (sparse_grad : Bool) : Except String SpSumOp :=
  if axis = none ∨ axis = some 0 ∨ axis = some 1 then
    .ok { axis := axis, structured := sparse_grad }
  else
    .error "Illegal value for self.axis."

/-- Which kind of gradient rule `SpSum.grad` builds. -/
inductive GradKind
  | structuredGrad
  | regularGrad
  | zeroGrad
  deriving DecidableEq

/-- Embeds the branch selection of `SpSum.grad`: a zero gradient for
non-continuous input dtype, otherwise the structured branch when
`self.structured` and the regular (densify-then-elementwise) branch when
not. -/
def SpSum_gradKind (op : SpSumOp) (x_dtype_continuous : Bool) : GradKind :=
  if x_dtype_continuous = false then .zeroGrad
  else if op.structured then .structuredGrad
  else .regularGrad

/-- Embeds the public entry point `sp_sum(x, axis=None, sparse_grad=False)`
(the symbolic input `x` does not enter the op configuration). -/
def sp_sum (axis : Option ℕ := none) (sparse_grad : Bool := false) :
    Except String SpSumOp :=
  SpSum_init axis sparse_grad

/-- C6 counterexample: calling `sp_sum` with no explicit gradient choice
(its default `sparse_grad=False`) yields, for a continuous-dtype operand,
the regular gradient rule, not the structured one. -/
theorem sp_sum_default_not_structured :
    sp_sum.map (fun op => SpSum_gradKind op true) = .ok .regularGrad
    ∧ sp_sum.map (fun op => SpSum_gradKind op true) ≠ .ok .structuredGrad := by
  refine ⟨rfl, ?_⟩
  intro h
  rw [show sp_sum.map (fun op => SpSum_gradKind op true) = .ok .regularGrad from rfl] at h
  exact absurd (Except.ok.inj h) (by decide)

/-- C6 (amended): through the public `sp_sum` entry point with no explicit
choice of gradient kind, the gradient rule used is the regular one, for
every axis setting (`None`, `0`, or `1`). -/
theorem sp_sum_default_regular (axis : Option ℕ)
    (h : axis = none ∨ axis = some 0 ∨ axis = some 1) :
    (sp_sum axis).map (fun op => SpSum_gradKind op true) = .ok .regularGrad := by
  simp [sp_sum, SpSum_init, h, SpSum_gradKind, Except.map]

/-- Witness for `sp_sum_default_regular` at `axis = 0`. -/
theorem sp_sum_default_regular_witness :
    (sp_sum (some 0)).map (fun op => SpSum_gradKind op true) = .ok .regularGrad :=
  sp_sum_default_regular (some 0) (Or.inr (Or.inl rfl))

/-! ## Loop lemmas for the array-updating perform methods -/

/-- A fold of length-preserving updates keeps the buffer length. -/
theorem foldl_set_length {β : Type} (g : List ℚ → β → List ℚ)
    (hg : ∀ a b, (g a b).length = a.length) :
    ∀ (l : List β) (init : List ℚ), (l.foldl g init).length = init.length := by
  intro l
  induction l with
  | nil => intro init; rfl
  | cons b t ih => intro init; rw [List.foldl_cons, ih, hg]

/-- Reading at `q` after writing `x` at `p`. -/
theorem getD_set_eq (l : List ℚ) (p : ℕ) (x : ℚ) (q : ℕ) :
    (l.set p x).getD q 0 = if p = q ∧ q < l.length then x else l.getD q 0 := by
  show ((l.set p x).get? q).getD 0 = _
  rw [List.get?_set]
  by_cases h : p = q
  · subst h
    by_cases h2 : p < l.length
    · simp [h2, List.get?_eq_get h2]
    · simp [h2, List.getElem?_eq_none (Nat.le_of_not_lt h2), List.getD]
  · simp [h]

/-- A fold writing `v p` at position `p` for every `p` in `l`: position `q`
ends at `v q` when touched and in bounds, and keeps its value otherwise. -/
theorem setfold_getD (v : ℕ → ℚ) :
    ∀ (l : List ℕ) (out : List ℚ) (q : ℕ),
      (l.foldl (fun o p => o.set p (v p)) out).getD q 0 =
        if q ∈ l ∧ q < out.length then v q else out.getD q 0 := by
  intro l
  induction l with
  | nil => intro out q; simp
  | cons p t ih =>
    intro out q
    rw [List.foldl_cons, ih, List.length_set, getD_set_eq]
    by_cases h2 : p = q
    · subst h2
      by_cases h1 : p ∈ t <;> by_cases h3 : p < out.length <;>
        simp [List.mem_cons, h1, h3]
    · have h2s : ¬q = p := fun hc => h2 hc.symm
      by_cases h1 : q ∈ t <;> by_cases h3 : q < out.length <;>
        simp [List.mem_cons, h1, h2, h2s, h3]

/-- A fold accumulating `w p` into position `σ p` for every `p` in `l`:
position `q` gains the sum of the `w p` over the `p` with `σ p = q`. -/
theorem scatterfold_getD (σ : ℕ → ℕ) (w : ℕ → ℚ) :
    ∀ (l : List ℕ) (buf : List ℚ) (q : ℕ), (∀ p ∈ l, σ p < buf.length) →
      (l.foldl (fun b p => b.set (σ p) (b.getD (σ p) 0 + w p)) buf).getD q 0 =
        buf.getD q 0 + ((l.filter (fun p => σ p = q)).map w).sum := by
  intro l
  induction l with
  | nil => intro buf q _; simp
  | cons p t ih =>
    intro buf q hb
    rw [List.foldl_cons,
      ih _ q (fun r hr => by
        rw [List.length_set]; exact hb r (List.mem_cons_of_mem _ hr)),
      getD_set_eq]
    by_cases h : σ p = q
    · have hq : q < buf.length := h ▸ hb p (List.mem_cons_self p t)
      rw [if_pos ⟨h, hq⟩, List.filter_cons, if_pos (by simp [h])]
      simp [h, add_assoc]
    · rw [if_neg (fun hc => h hc.1), List.filter_cons, if_neg (by simp [h])]

/-- A fold clearing position `σ p` for every `p` in `l`. -/
theorem clearfold_getD (σ : ℕ → ℕ) :
    ∀ (l : List ℕ) (buf : List ℚ) (q : ℕ),
      (l.foldl (fun b p => b.set (σ p) 0) buf).getD q 0 =
        if q ∈ l.map σ ∧ q < buf.length then 0 else buf.getD q 0 := by
  intro l
  induction l with
  | nil => intro buf q; simp
  | cons p t ih =>
    intro buf q
    rw [List.foldl_cons, ih, List.length_set, getD_set_eq]
    by_cases h2 : σ p = q
    · by_cases h1 : q ∈ t.map σ <;> by_cases h3 : q < buf.length <;>
        simp [List.mem_cons, h1, h2, h3]
    · have h2s : ¬q = σ p := fun hc => h2 hc.symm
      by_cases h1 : q ∈ t.map σ <;> by_cases h3 : q < buf.length <;>
        simp [List.mem_cons, h1, h2, h2s, h3]

/-- Out-of-range or zero everywhere: reading a zero-filled buffer yields 0. -/
theorem getD_replicate_zero (k q : ℕ) : (List.replicate k (0 : ℚ)).getD q 0 = 0 := by
  induction k generalizing q with
  | zero => rfl
  | succ k ih =>
    cases q with
    | zero => rfl
    | succ q => exact ih q

/-- A buffer of length `k` that reads 0 at every position below `k` is the
zero-filled buffer. -/
theorem eq_replicate_zero_of_getD (b : List ℚ) (k : ℕ) (hlen : b.length = k)
    (h : ∀ q, q < k → b.getD q 0 = 0) : b = List.replicate k 0 := by
  apply List.ext_get?
  intro n
  by_cases hn : n < k
  · rw [List.get?_eq_get (by rw [hlen]; exact hn),
      List.get?_eq_get (by rw [List.length_replicate]; exact hn)]
    have hv := h n hn
    rw [List.getD_eq_get?, List.get?_eq_get (by rw [hlen]; exact hn)] at hv
    simp only [Option.getD_some] at hv
    rw [hv, List.get_replicate]
  · rw [List.get?_eq_none.mpr (by rw [hlen]; exact Nat.le_of_not_lt hn),
      List.get?_eq_none.mpr (by rw [List.length_replicate]; exact Nat.le_of_not_lt hn)]

/-! ## CSMGrad (the pattern-remap gradient operator of CSM) -/

/-- The `sp_dim` of `CSMGrad.perform`: the minor dimension, chosen by testing
whether the pointer vector's length fits the first shape entry. -/
def CSMGrad_spdim (x_indptr x_shape : List ℕ) : ℕ :=
  if x_indptr.length - 1 = x_shape.getD 0 0 then x_shape.getD 1 0
  else x_shape.getD 0 0

/-- One iteration of the outer loop of `CSMGrad.perform` on the state
`(g_row, gout_data)`: scatter the incoming gradient's values of major line
`i` into the dense buffer by minor index, gather at the original pattern's
indices, then clear the scattered positions. -/
def CSMGrad_step (x_indices x_indptr : List ℕ) (g_data : List ℚ)
    (g_indices g_indptr : List ℕ) (st : List ℚ × List ℚ) (i : ℕ) :
    List ℚ × List ℚ :=
  let buf := (rangeFromTo (g_indptr.getD i 0) (g_indptr.getD (i + 1) 0)).foldl
    (fun b p => b.set (g_indices.getD p 0)
      (b.getD (g_indices.getD p 0) 0 + g_data.getD p 0)) st.1
  let out := (rangeFromTo (x_indptr.getD i 0) (x_indptr.getD (i + 1) 0)).foldl
    (fun o p => o.set p (buf.getD (x_indices.getD p 0) 0)) st.2
  let buf2 := (rangeFromTo (g_indptr.getD i 0) (g_indptr.getD (i + 1) 0)).foldl
    (fun b p => b.set (g_indices.getD p 0) 0) buf
  (buf2, out)

/-- Embeds `CSMGrad.perform`: a zero buffer `g_row` of the minor dimension
and a zero output of the original data vector's length, then the outer loop
over the major lines. -/
def CSMGrad_perform (x_data : List ℚ) (x_indices x_indptr x_shape : List ℕ)
    (g_data : List ℚ) (g_indices g_indptr _g_shape : List ℕ) : List ℚ :=
  ((List.range (x_indptr.length - 1)).foldl
      (CSMGrad_step x_indices x_indptr g_data g_indices g_indptr)
      (List.replicate (CSMGrad_spdim x_indptr x_shape) 0,
        List.replicate x_data.length 0)).2

/-- The sum of the incoming gradient's stored values at major line `i` and
minor position `minor`. -/
def gradSumAt (g_data : List ℚ) (g_indices g_indptr : List ℕ) (i minor : ℕ) : ℚ :=
  (((rangeFromTo (g_indptr.getD i 0) (g_indptr.getD (i + 1) 0)).filter
      (fun k => g_indices.getD k 0 = minor)).map (fun k => g_data.getD k 0)).sum

/-- Invariant of the outer loop of `CSMGrad.perform`: the buffer returns to
all-zero after every iteration, the output keeps the original data vector's
length, and every processed window holds the remapped gradient sums. -/
theorem CSMGrad_invariant (x_data : List ℚ) (x_indices x_indptr x_shape : List ℕ)
    (g_data : List ℚ) (g_indices g_indptr : List ℕ)
    (hmono : ∀ a b, a ≤ b → b ≤ x_indptr.length - 1 →
      x_indptr.getD a 0 ≤ x_indptr.getD b 0)
    (hg : ∀ i, i < x_indptr.length - 1 →
      ∀ p ∈ rangeFromTo (g_indptr.getD i 0) (g_indptr.getD (i + 1) 0),
        g_indices.getD p 0 < CSMGrad_spdim x_indptr x_shape)
    (hx : ∀ i, i < x_indptr.length - 1 →
      ∀ p ∈ rangeFromTo (x_indptr.getD i 0) (x_indptr.getD (i + 1) 0),
        p < x_data.length) :
    ∀ m, m ≤ x_indptr.length - 1 →
      ((List.range m).foldl
        (CSMGrad_step x_indices x_indptr g_data g_indices g_indptr)
        (List.replicate (CSMGrad_spdim x_indptr x_shape) 0,
          List.replicate x_data.length 0)).1 =
        List.replicate (CSMGrad_spdim x_indptr x_shape) 0
      ∧ ((List.range m).foldl
          (CSMGrad_step x_indices x_indptr g_data g_indices g_indptr)
          (List.replicate (CSMGrad_spdim x_indptr x_shape) 0,
            List.replicate x_data.length 0)).2.length = x_data.length
      ∧ ∀ i, i < m →
          ∀ p ∈ rangeFromTo (x_indptr.getD i 0) (x_indptr.getD (i + 1) 0),
            (((List.range m).foldl
              (CSMGrad_step x_indices x_indptr g_data g_indices g_indptr)
              (List.replicate (CSMGrad_spdim x_indptr x_shape) 0,
                List.replicate x_data.length 0)).2).getD p 0 =
              gradSumAt g_data g_indices g_indptr i (x_indices.getD p 0) := by
  intro m
  induction m with
  | zero =>
    intro _
    refine ⟨rfl, List.length_replicate _ _, ?_⟩
    intro i hi
    exact absurd hi (Nat.not_lt_zero i)
  | succ m ih =>
    intro hm
    have hm' : m ≤ x_indptr.length - 1 := Nat.le_of_succ_le hm
    have hmlt : m < x_indptr.length - 1 := hm
    obtain ⟨ihbuf, ihlen, ihold⟩ := ih hm'
    rw [List.range_succ, List.foldl_append, List.foldl_cons, List.foldl_nil]
    set st := (List.range m).foldl
      (CSMGrad_step x_indices x_indptr g_data g_indices g_indptr)
      (List.replicate (CSMGrad_spdim x_indptr x_shape) 0,
        List.replicate x_data.length 0) with hst
    -- the state after the scatter of iteration m
    have hbuflen : ∀ p ∈ rangeFromTo (g_indptr.getD m 0) (g_indptr.getD (m + 1) 0),
        g_indices.getD p 0 < st.1.length := by
      intro p hp
      rw [ihbuf, List.length_replicate]
      exact hg m hmlt p hp
    constructor
    · -- buffer is zero again: every scattered position is cleared, the rest
      -- never left zero
      show (CSMGrad_step x_indices x_indptr g_data g_indices g_indptr st m).1 = _
      unfold CSMGrad_step
      simp only []
      apply eq_replicate_zero_of_getD
      · rw [foldl_set_length _ (fun a b => List.length_set a _ _),
          foldl_set_length _ (fun a b => List.length_set a _ _), ihbuf,
          List.length_replicate]
      · intro q hq
        rw [clearfold_getD]
        by_cases hmem : q ∈ (rangeFromTo (g_indptr.getD m 0)
            (g_indptr.getD (m + 1) 0)).map (fun p => g_indices.getD p 0)
        · have hqlt : q < ((rangeFromTo (g_indptr.getD m 0)
              (g_indptr.getD (m + 1) 0)).foldl
                (fun b p => b.set (g_indices.getD p 0)
                  (b.getD (g_indices.getD p 0) 0 + g_data.getD p 0)) st.1).length := by
            rw [foldl_set_length _ (fun a b => List.length_set a _ _), ihbuf,
              List.length_replicate]
            exact hq
          rw [if_pos ⟨hmem, hqlt⟩]
        · rw [if_neg (fun hc => hmem hc.1), scatterfold_getD _ _ _ _ _ hbuflen,
            ihbuf, getD_replicate_zero]
          have hfil : (rangeFromTo (g_indptr.getD m 0)
              (g_indptr.getD (m + 1) 0)).filter
              (fun p => g_indices.getD p 0 = q) = [] := by
            refine List.filter_eq_nil.mpr ?_
            intro p hp
            simp only [decide_eq_true_eq]
            intro hc
            exact hmem (List.mem_map.mpr ⟨p, hp, hc⟩)
          rw [hfil]
          simp
    constructor
    · show (CSMGrad_step x_indices x_indptr g_data g_indices g_indptr st m).2.length = _
      unfold CSMGrad_step
      simp only []
      rw [foldl_set_length _ (fun a b => List.length_set a _ _), ihlen]
    · intro i hi p hp
      show ((CSMGrad_step x_indices x_indptr g_data g_indices g_indptr st m).2).getD p 0 = _
      unfold CSMGrad_step
      simp only []
      rw [setfold_getD]
      rcases Nat.lt_or_ge i m with him | him
      · -- an already-processed window: iteration m does not touch it
        have hpm : p ∉ rangeFromTo (x_indptr.getD m 0) (x_indptr.getD (m + 1) 0) := by
          intro hc
          rw [rangeFromTo, List.mem_range'_1] at hp hc
          have h1 : x_indptr.getD (i + 1) 0 ≤ x_indptr.getD m 0 :=
            hmono (i + 1) m him hm'
          have h2 : p < x_indptr.getD (i + 1) 0 := by
            have := hp.2
            omega
          omega
        rw [if_neg (fun hc => hpm hc.1)]
        exact ihold i him p hp
      · -- the window of iteration m itself
        have hieq : i = m := Nat.le_antisymm (Nat.lt_succ_iff.mp hi) him
        subst hieq
        have hplen : p < st.2.length := by rw [ihlen]; exact hx i hmlt p hp
        rw [if_pos ⟨hp, hplen⟩, scatterfold_getD _ _ _ _ _ hbuflen, ihbuf,
          getD_replicate_zero, zero_add]
        rfl

/-- C3: `CSMGrad.perform` returns a data vector of exactly the original data
vector's length whose entry at each stored position of the original pattern
is the sum of the incoming gradient's stored values at the same
(major index, minor index) position — also when the incoming pattern
differs from the original pattern.  Hypotheses: the original pointer vector
is monotone, the incoming minor indices of each processed window fit the
dense buffer, and the original windows lie inside the data vector. -/
theorem CSMGrad_perform_correct (x_data : List ℚ)
    (x_indices x_indptr x_shape : List ℕ) (g_data : List ℚ)
    (g_indices g_indptr g_shape : List ℕ)
    (hmono : ∀ a b, a ≤ b → b ≤ x_indptr.length - 1 →
      x_indptr.getD a 0 ≤ x_indptr.getD b 0)
    (hg : ∀ i, i < x_indptr.length - 1 →
      ∀ p ∈ rangeFromTo (g_indptr.getD i 0) (g_indptr.getD (i + 1) 0),
        g_indices.getD p 0 < CSMGrad_spdim x_indptr x_shape)
    (hx : ∀ i, i < x_indptr.length - 1 →
      ∀ p ∈ rangeFromTo (x_indptr.getD i 0) (x_indptr.getD (i + 1) 0),
        p < x_data.length) :
    (CSMGrad_perform x_data x_indices x_indptr x_shape
        g_data g_indices g_indptr g_shape).length = x_data.length
    ∧ ∀ i, i < x_indptr.length - 1 →
        ∀ p ∈ rangeFromTo (x_indptr.getD i 0) (x_indptr.getD (i + 1) 0),
          (CSMGrad_perform x_data x_indices x_indptr x_shape
              g_data g_indices g_indptr g_shape).getD p 0 =
            gradSumAt g_data g_indices g_indptr i (x_indices.getD p 0) := by
  obtain ⟨_, hlen, hval⟩ :=
    CSMGrad_invariant x_data x_indices x_indptr x_shape g_data g_indices
      g_indptr hmono hg hx (x_indptr.length - 1) le_rfl
  exact ⟨hlen, hval⟩

/-- Witness for `CSMGrad_perform_correct`: a 2×2 csr pattern receiving a
gradient with a different sparsity pattern (a duplicate entry in line 0 and
an entry at a position the original pattern does not store). -/
theorem CSMGrad_perform_correct_witness :
    (CSMGrad_perform [5, 6] [0, 1] [0, 1, 2] [2, 2]
        [1, 2, 3] [0, 0, 0] [0, 2, 3] [2, 2]).length = 2
    ∧ (CSMGrad_perform [5, 6] [0, 1] [0, 1, 2] [2, 2]
        [1, 2, 3] [0, 0, 0] [0, 2, 3] [2, 2]).getD 0 0 =
        gradSumAt [1, 2, 3] [0, 0, 0] [0, 2, 3] 0 0 := by
  have hmono : ∀ a b, a ≤ b → b ≤ ([0, 1, 2] : List ℕ).length - 1 →
      ([0, 1, 2] : List ℕ).getD a 0 ≤ ([0, 1, 2] : List ℕ).getD b 0 := by
    have hd : ∀ a, a < 3 → ∀ b, b < 3 → a ≤ b →
        ([0, 1, 2] : List ℕ).getD a 0 ≤ ([0, 1, 2] : List ℕ).getD b 0 := by decide
    intro a b hab hb
    simp only [List.length_cons, List.length_nil] at hb
    exact hd a (by omega) b (by omega) hab
  obtain ⟨hlen, hval⟩ :=
    CSMGrad_perform_correct [5, 6] [0, 1] [0, 1, 2] [2, 2]
      [1, 2, 3] [0, 0, 0] [0, 2, 3] [2, 2]
      hmono (by decide) (by decide)
  exact ⟨hlen, hval 0 (by decide) 0 (by decide)⟩

/-! ## StructuredDotGradCSR / StructuredDotGradCSC and structured_dot_grad -/

/-- The transpose of a dense matrix whose rows have length `ncols`. -/
def transposeMat (ncols : ℕ) (m : List (List ℚ)) : List (List ℚ) :=
  (List.range ncols).map (fun k => m.map (fun r => r.getD k 0))

/-- Dot product of two dense vectors (`np.dot` of two 1-D arrays; the
length hypotheses of the theorems make the operands equal-length). -/
def dotProd (u v : List ℚ) : ℚ := (List.zipWith (· * ·) u v).sum

/-- The nested loop shared by the two structured-dot gradient operators:
allocate `np.zeros(L)` and, for every major line `i` of the pointer vector,
write `f i p` at every position `p` of line `i`'s window. -/
def windowedAssign (indptr : List ℕ) (f : ℕ → ℕ → ℚ) (L : ℕ) : List ℚ :=
  (List.range (indptr.length - 1)).foldl
    (fun out i =>
      (rangeFromTo (indptr.getD i 0) (indptr.getD (i + 1) 0)).foldl
        (fun o p => o.set p (f i p)) out)
    (List.replicate L 0)

/-- Embeds `StructuredDotGradCSR.perform`: for every row `i` and stored
position `j_idx` of that row, `g_a_data[j_idx] = np.dot(g_ab[i], b[j].T)`
with `j = a_indices[j_idx]` (the transpose of a 1-D array is itself). -/
def StructuredDotGradCSR_perform (a_indices a_indptr : List ℕ)
    (b g_ab : List (List ℚ)) : List ℚ :=
  windowedAssign a_indptr
    (fun i j_idx => dotProd (g_ab.getD i []) (b.getD (a_indices.getD j_idx 0) []))
    a_indices.length

/-- Embeds `StructuredDotGradCSC.perform`: for every column `j` and stored
position `i_idx` of that column, `g_a_data[i_idx] = np.dot(g_ab[i], b[j].T)`
with `i = a_indices[i_idx]`. -/
def StructuredDotGradCSC_perform (a_indices a_indptr : List ℕ)
    (b g_ab : List (List ℚ)) : List ℚ :=
  windowedAssign a_indptr
    (fun j i_idx => dotProd (g_ab.getD (a_indices.getD i_idx 0) []) (b.getD j []))
    a_indices.length

/-- Embeds `structured_dot_grad`: dispatch on the sparse operand's format to
the matching gradient operator, then repack its data vector with the
operand's own indices, pointer and shape through `CSM`. -/
def structured_dot_grad (A : SciSparse) (dense_B ga : List (List ℚ))
    (ga_dtype : String) : Except String SciSparse :=
  let g_A_data := match A.format with
    | .csc => StructuredDotGradCSC_perform A.indices A.indptr dense_B ga
    | .csr => StructuredDotGradCSR_perform A.indices A.indptr dense_B ga
  CSM_perform A.format g_A_data ga_dtype A.indices A.indptr [A.shape.1, A.shape.2]

theorem windowedAssign_length (indptr : List ℕ) (f : ℕ → ℕ → ℚ) (L : ℕ) :
    (windowedAssign indptr f L).length = L := by
  unfold windowedAssign
  rw [foldl_set_length, List.length_replicate]
  intro a b
  exact foldl_set_length _ (fun o p => List.length_set o _ _) _ a

/-- Invariant of the outer loop of `windowedAssign`: processed windows hold
their assigned values. -/
theorem windowedAssign_invariant (indptr : List ℕ) (f : ℕ → ℕ → ℚ) (L : ℕ)
    (hmono : ∀ a b, a ≤ b → b ≤ indptr.length - 1 →
      indptr.getD a 0 ≤ indptr.getD b 0)
    (hbound : ∀ i, i < indptr.length - 1 →
      ∀ p ∈ rangeFromTo (indptr.getD i 0) (indptr.getD (i + 1) 0), p < L) :
    ∀ m, m ≤ indptr.length - 1 →
      ((List.range m).foldl
        (fun out i =>
          (rangeFromTo (indptr.getD i 0) (indptr.getD (i + 1) 0)).foldl
            (fun o p => o.set p (f i p)) out)
        (List.replicate L 0)).length = L
      ∧ ∀ i, i < m →
        ∀ p ∈ rangeFromTo (indptr.getD i 0) (indptr.getD (i + 1) 0),
          ((List.range m).foldl
            (fun out i =>
              (rangeFromTo (indptr.getD i 0) (indptr.getD (i + 1) 0)).foldl
                (fun o p => o.set p (f i p)) out)
            (List.replicate L 0)).getD p 0 = f i p := by
  intro m
  induction m with
  | zero =>
    intro _
    exact ⟨List.length_replicate _ _, fun i hi => absurd hi (Nat.not_lt_zero i)⟩
  | succ m ih =>
    intro hm
    have hm' : m ≤ indptr.length - 1 := Nat.le_of_succ_le hm
    have hmlt : m < indptr.length - 1 := hm
    obtain ⟨ihlen, ihold⟩ := ih hm'
    rw [List.range_succ, List.foldl_append, List.foldl_cons, List.foldl_nil]
    set st := (List.range m).foldl
      (fun out i =>
        (rangeFromTo (indptr.getD i 0) (indptr.getD (i + 1) 0)).foldl
          (fun o p => o.set p (f i p)) out)
      (List.replicate L 0) with hst
    constructor
    · rw [foldl_set_length _ (fun o p => List.length_set o _ _), ihlen]
    · intro i hi p hp
      rw [setfold_getD]
      rcases Nat.lt_or_ge i m with him | him
      · have hpm : p ∉ rangeFromTo (indptr.getD m 0) (indptr.getD (m + 1) 0) := by
          intro hc
          rw [rangeFromTo, List.mem_range'_1] at hp hc
          have h1 : indptr.getD (i + 1) 0 ≤ indptr.getD m 0 :=
            hmono (i + 1) m him hm'
          omega
        rw [if_neg (fun hc => hpm hc.1)]
        exact ihold i him p hp
      · have hieq : i = m := Nat.le_antisymm (Nat.lt_succ_iff.mp hi) him
        subst hieq
        have hplen : p < st.length := by rw [ihlen]; exact hbound i hmlt p hp
        rw [if_pos ⟨hp, hplen⟩]

theorem windowedAssign_getD (indptr : List ℕ) (f : ℕ → ℕ → ℚ) (L : ℕ)
    (hmono : ∀ a b, a ≤ b → b ≤ indptr.length - 1 →
      indptr.getD a 0 ≤ indptr.getD b 0)
    (hbound : ∀ i, i < indptr.length - 1 →
      ∀ p ∈ rangeFromTo (indptr.getD i 0) (indptr.getD (i + 1) 0), p < L) :
    ∀ i, i < indptr.length - 1 →
      ∀ p ∈ rangeFromTo (indptr.getD i 0) (indptr.getD (i + 1) 0),
        (windowedAssign indptr f L).getD p 0 = f i p :=
  (windowedAssign_invariant indptr f L hmono hbound (indptr.length - 1) le_rfl).2

theorem dotProd_eq_sum_range (u : List ℚ) :
    ∀ v : List ℚ, u.length = v.length →
      dotProd u v = ((List.range u.length).map (fun t => u.getD t 0 * v.getD t 0)).sum := by
  induction u with
  | nil => intro v _; simp [dotProd]
  | cons a u ih =>
    intro v hv
    cases v with
    | nil => simp at hv
    | cons c v =>
      simp only [List.length_cons, Nat.succ.injEq] at hv
      rw [List.length_cons, List.range_succ_eq_map]
      simp only [List.map_cons, List.map_map, List.sum_cons]
      have : dotProd (a :: u) (c :: v) = a * c + dotProd u v := by
        simp [dotProd]
      rw [this, ih v hv]
      congr 1

/-- Row `k` of the transpose is the `k`-th column of the original. -/
theorem transposeMat_row (K : ℕ) (b : List (List ℚ)) (k : ℕ) (hk : k < K) :
    (transposeMat K b).getD k [] = b.map (fun r => r.getD k 0) := by
  unfold transposeMat
  rw [List.getD_eq_getElem ((List.range K).map (fun k => b.map (fun r => r.getD k 0)))
    [] (by simpa using hk)]
  simp

/-- Reading row `k` of a transpose at `j`: entry `k` of row `j`. -/
theorem transposeMat_entry (K : ℕ) (b : List (List ℚ)) (k j : ℕ) (hk : k < K)
    (hj : j < b.length) :
    ((transposeMat K b).getD k []).getD j 0 = (b.getD j []).getD k 0 := by
  rw [transposeMat_row K b k hk,
    List.getD_eq_getElem (b.map (fun r => r.getD k 0)) 0 (by simpa using hj),
    List.getElem_map, List.getD_eq_getElem b [] hj]

/-- Applying `np.dot` to row `i` of `g` and row `j` of `b` is the `(i, j)` entry of
the matrix product `g ⬝ bᵀ`, also when `i` or `j` falls outside the
matrices (both sides are then 0, rows being rectangular of length `K`). -/
theorem dotProd_eq_matMulEntry (g b : List (List ℚ)) (K i j : ℕ)
    (hb : ∀ r ∈ b, r.length = K) (hg2 : ∀ r ∈ g, r.length = K) :
    dotProd (g.getD i []) (b.getD j []) = matMulEntry g (transposeMat K b) i j := by
  have hTlen : (transposeMat K b).length = K := by
    unfold transposeMat; rw [List.length_map, List.length_range]
  by_cases hi : i < g.length
  · have hgi : (g.getD i []).length = K := by
      rw [List.getD_eq_getElem g [] hi]
      exact hg2 _ (List.getElem_mem hi)
    by_cases hj : j < b.length
    · have hbj : (b.getD j []).length = K := by
        rw [List.getD_eq_getElem b [] hj]
        exact hb _ (List.getElem_mem hj)
      rw [dotProd_eq_sum_range _ _ (by rw [hgi, hbj]), hgi]
      unfold matMulEntry
      rw [hTlen]
      congr 1
      refine List.map_congr_left ?_
      intro k hk
      rw [List.mem_range] at hk
      rw [transposeMat_entry K b k j hk hj]
    · -- j outside b: both sides vanish
      have hbj : b.getD j [] = [] := List.getD_eq_default b [] (Nat.le_of_not_lt hj)
      rw [hbj]
      have h1 : dotProd (g.getD i []) [] = 0 := by simp [dotProd]
      rw [h1]
      unfold matMulEntry
      rw [hTlen]
      symm
      refine List.sum_eq_zero ?_
      intro x hx
      rw [List.mem_map] at hx
      obtain ⟨k, hk, rfl⟩ := hx
      rw [List.mem_range] at hk
      have hz : ((transposeMat K b).getD k []).getD j 0 = 0 := by
        rw [transposeMat_row K b k hk]
        exact List.getD_eq_default _ 0 (by simpa using Nat.le_of_not_lt hj)
      rw [hz, mul_zero]
  · -- i outside g: both sides vanish
    have hgi : g.getD i [] = [] := List.getD_eq_default g [] (Nat.le_of_not_lt hi)
    have h1 : dotProd (g.getD i []) (b.getD j []) = 0 := by
      rw [hgi]; simp [dotProd]
    rw [h1]
    unfold matMulEntry
    symm
    refine List.sum_eq_zero ?_
    intro x hx
    rw [List.mem_map] at hx
    obtain ⟨k, hk, rfl⟩ := hx
    rw [hgi]
    simp

/-- C2: for a sparse matrix `A` (csr or csc) and rectangular dense matrices
`B` and output-gradient `g` with `K` columns each, `structured_dot_grad`
returns a sparse matrix with `A`'s own indices, pointer and shape, whose
data entry at each stored position — row `i`, column `A.indices[p]` in csr;
row `A.indices[p]`, column `i` in csc — is the entry of the brute-force
dense gradient `g ⬝ Bᵀ` at that (row, column). -/
theorem structured_dot_grad_matches_dense (A : SciSparse)
    (b g : List (List ℚ)) (dt : String) (K : ℕ)
    (hA : A.data.length = A.indices.length)
    (hmono : ∀ x y, x ≤ y → y ≤ A.indptr.length - 1 →
      A.indptr.getD x 0 ≤ A.indptr.getD y 0)
    (hwin : ∀ i, i < A.indptr.length - 1 →
      ∀ p ∈ rangeFromTo (A.indptr.getD i 0) (A.indptr.getD (i + 1) 0),
        p < A.indices.length)
    (hb : ∀ r ∈ b, r.length = K) (hg2 : ∀ r ∈ g, r.length = K) :
    ∃ G, structured_dot_grad A b g dt = .ok G
      ∧ G.format = A.format ∧ G.indices = A.indices ∧ G.indptr = A.indptr
      ∧ G.shape = A.shape ∧ G.data.length = A.data.length
      ∧ ∀ i, i < A.indptr.length - 1 →
        ∀ p ∈ rangeFromTo (A.indptr.getD i 0) (A.indptr.getD (i + 1) 0),
          G.data.getD p 0 =
            (match A.format with
              | .csr => matMulEntry g (transposeMat K b) i (A.indices.getD p 0)
              | .csc => matMulEntry g (transposeMat K b) (A.indices.getD p 0) i) := by
  have hok : structured_dot_grad A b g dt = .ok
      { format := A.format, dtype := dt, shape := A.shape,
        data := (match A.format with
          | .csc => StructuredDotGradCSC_perform A.indices A.indptr b g
          | .csr => StructuredDotGradCSR_perform A.indices A.indptr b g),
        indices := A.indices, indptr := A.indptr } := by
    unfold structured_dot_grad CSM_perform
    have hlen : (match A.format with
        | .csc => StructuredDotGradCSC_perform A.indices A.indptr b g
        | .csr => StructuredDotGradCSR_perform A.indices A.indptr b g).length =
        A.indices.length := by
      cases A.format <;>
        simp [StructuredDotGradCSR_perform, StructuredDotGradCSC_perform,
          windowedAssign_length]
    simp [hlen]
  refine ⟨_, hok, rfl, rfl, rfl, rfl, ?_, ?_⟩
  · show (match A.format with
      | .csc => StructuredDotGradCSC_perform A.indices A.indptr b g
      | .csr => StructuredDotGradCSR_perform A.indices A.indptr b g).length = _
    rw [hA]
    cases A.format <;>
      simp [StructuredDotGradCSR_perform, StructuredDotGradCSC_perform,
        windowedAssign_length]
  · intro i hi p hp
    show (match A.format with
      | .csc => StructuredDotGradCSC_perform A.indices A.indptr b g
      | .csr => StructuredDotGradCSR_perform A.indices A.indptr b g).getD p 0 = _
    cases hf : A.format with
    | csr =>
      show (StructuredDotGradCSR_perform A.indices A.indptr b g).getD p 0 = _
      unfold StructuredDotGradCSR_perform
      rw [windowedAssign_getD A.indptr _ _ hmono hwin i hi p hp,
        dotProd_eq_matMulEntry g b K i (A.indices.getD p 0) hb hg2]
    | csc =>
      show (StructuredDotGradCSC_perform A.indices A.indptr b g).getD p 0 = _
      unfold StructuredDotGradCSC_perform
      rw [windowedAssign_getD A.indptr _ _ hmono hwin i hi p hp,
        dotProd_eq_matMulEntry g b K (A.indices.getD p 0) i hb hg2]

/-- Witness for `structured_dot_grad_matches_dense`: a concrete 2×2 csr
matrix against concrete 2×2 dense operands. -/
theorem structured_dot_grad_matches_dense_witness :
    ∃ G, structured_dot_grad
        { format := .csr, dtype := "float64", shape := (2, 2),
          data := [9, 9], indices := [0, 1], indptr := [0, 1, 2] }
        [[1, 2], [3, 4]] [[5, 6], [7, 8]] "float64" = .ok G
      ∧ G.data.getD 0 0 =
          matMulEntry [[5, 6], [7, 8]] (transposeMat 2 [[1, 2], [3, 4]]) 0 0 := by
  have hmono : ∀ x y, x ≤ y → y ≤ ([0, 1, 2] : List ℕ).length - 1 →
      ([0, 1, 2] : List ℕ).getD x 0 ≤ ([0, 1, 2] : List ℕ).getD y 0 := by
    have hd : ∀ x, x < 3 → ∀ y, y < 3 → x ≤ y →
        ([0, 1, 2] : List ℕ).getD x 0 ≤ ([0, 1, 2] : List ℕ).getD y 0 := by decide
    intro x y hxy hy
    simp only [List.length_cons, List.length_nil] at hy
    exact hd x (by omega) y (by omega) hxy
  obtain ⟨G, hok, _, _, _, _, _, hval⟩ :=
    structured_dot_grad_matches_dense
      { format := .csr, dtype := "float64", shape := (2, 2),
        data := [9, 9], indices := [0, 1], indptr := [0, 1, 2] }
      [[1, 2], [3, 4]] [[5, 6], [7, 8]] "float64" 2
      (by decide) hmono (by decide) (by decide) (by decide)
  exact ⟨G, hok, hval 0 (by decide) 0 (by decide)⟩

/-! ## HStack / VStack gradients -/

/-- Dtype classification of a symbolic input.  Modelled from the spec:
the continuous dtype set (`tensor_continuous_dtypes`, defined in
`pytensor.tensor.type`, which is not under src/) holds the float and
complex dtypes; integer-typed inputs are not continuous. -/
inductive DtypeKind
  | intLike
  | uintLike
  | floatLike
  | complexLike
  deriving DecidableEq, Inhabited

/-- Whether the dtype belongs to the continuous (float or complex) set. -/
def DtypeKind.isContinuous : DtypeKind → Bool
  | .floatLike => true
  | .complexLike => true
  | _ => false

/-- Modelled from the spec: `Split` (`pytensor.tensor.basic`, not under
src/) splits the matrix into consecutive slices along the axis, each sized
by the corresponding entry of the sizes vector.  Axis-1 version: column
blocks. -/
def splitCols : List (List ℚ) → List ℕ → List (List (List ℚ))
  | _, [] => []
  | gz, w :: ws => gz.map (fun r => r.take w) :: splitCols (gz.map (fun r => r.drop w)) ws

/-- Modelled from the spec: `Split` along axis 0 — row blocks. -/
def splitRows : List (List ℚ) → List ℕ → List (List (List ℚ))
  | _, [] => []
  | gz, h :: hs => gz.take h :: splitRows (gz.drop h) hs

/-- Nonzero entries of a dense row with their column positions. -/
def rowNonzeros (r : List ℚ) : List (ℕ × ℚ) :=
  r.enum.filter (fun iv => iv.2 ≠ 0)

/-- Embeds `SparseFromDense.perform`: the scipy conversion of a dense array
into the canonical sparse matrix of the requested format (row-compressed
for csr; column-compressed, via the transpose, for csc). -/
def SparseFromDense_perform (format : SpFormat) (ddtype : String)
    (x : List (List ℚ)) : SciSparse :=
  match format with
  | .csr =>
      { format := .csr, dtype := ddtype, shape := (x.length, ncols x),
        data := (x.map (fun r => (rowNonzeros r).map (fun iv => iv.2))).flatten,
        indices := (x.map (fun r => (rowNonzeros r).map (fun iv => iv.1))).flatten,
        indptr := (List.range (x.length + 1)).map
          (fun i => ((x.take i).map (fun r => (rowNonzeros r).length)).sum) }
  | .csc =>
      let xt := transposeMat (ncols x) x
      { format := .csc, dtype := ddtype, shape := (x.length, ncols x),
        data := (xt.map (fun r => (rowNonzeros r).map (fun iv => iv.2))).flatten,
        indices := (xt.map (fun r => (rowNonzeros r).map (fun iv => iv.1))).flatten,
        indptr := (List.range (xt.length + 1)).map
          (fun i => ((xt.take i).map (fun r => (rowNonzeros r).length)).sum) }

/-- The output gradient as the stacking grad methods receive it: a sparse
matrix (densified through `dense_from_sparse` on entry) or a dense one. -/
inductive GzIn
  | sparseIn (s : SciSparse)
  | denseIn (m : List (List ℚ)) (dt : String)

/-- The `if _is_sparse_variable(gz): gz = dense_from_sparse(gz)` step of the
grad methods, keeping the gradient's dtype alongside. -/
def densifyGz : GzIn → List (List ℚ) × String
  | .sparseIn s => (toDenseMat s, s.dtype)
  | .denseIn m dt => (m, dt)

/-- Embeds `HStack.grad`: densify the output gradient if it arrived sparse,
split it along axis 1 at each input's column count, convert every slice to
the operator's format, and keep a slice as an input's gradient only when
that input's dtype is continuous. -/
def HStack_grad (format : SpFormat) (inputDtypes : List DtypeKind)
    (inputCols : List ℕ) (gz : GzIn) : List (Option SciSparse) :=
  let gzd := densifyGz gz
  let split := splitCols gzd.1 inputCols
  let derivative := split.map (fun s => SparseFromDense_perform format gzd.2 s)
  (inputDtypes.zip derivative).map
    (fun cd => if cd.1.isContinuous then some cd.2 else none)

/-- Embeds `VStack.grad`: the same with the split along axis 0 at each
input's row count. -/
def VStack_grad (format : SpFormat) (inputDtypes : List DtypeKind)
    (inputRows : List ℕ) (gz : GzIn) : List (Option SciSparse) :=
  let gzd := densifyGz gz
  let split := splitRows gzd.1 inputRows
  let derivative := split.map (fun s => SparseFromDense_perform format gzd.2 s)
  (inputDtypes.zip derivative).map
    (fun cd => if cd.1.isContinuous then some cd.2 else none)

theorem splitCols_length : ∀ (ws : List ℕ) (gz : List (List ℚ)),
    (splitCols gz ws).length = ws.length := by
  intro ws
  induction ws with
  | nil => intro gz; rfl
  | cons w ws ih => intro gz; simp [splitCols, ih]

theorem splitRows_length : ∀ (hs : List ℕ) (gz : List (List ℚ)),
    (splitRows gz hs).length = hs.length := by
  intro hs
  induction hs with
  | nil => intro gz; rfl
  | cons h hs ih => intro gz; simp [splitRows, ih]

/-- The `t`-th column block starts at the sum of the earlier widths. -/
theorem splitCols_getD : ∀ (ws : List ℕ) (gz : List (List ℚ)) (t : ℕ),
    t < ws.length →
      (splitCols gz ws).getD t [] =
        gz.map (fun r => (r.drop ((ws.take t).sum)).take (ws.getD t 0)) := by
  intro ws
  induction ws with
  | nil => intro gz t ht; simp at ht
  | cons w ws ih =>
    intro gz t ht
    cases t with
    | zero => simp [splitCols]
    | succ t =>
      rw [List.length_cons, Nat.succ_lt_succ_iff] at ht
      show (splitCols (gz.map (fun r => r.drop w)) ws).getD t [] = _
      rw [ih (gz.map (fun r => r.drop w)) t ht, List.map_map]
      refine List.map_congr_left ?_
      intro r _
      show ((r.drop w).drop ((ws.take t).sum)).take (ws.getD t 0) = _
      rw [List.drop_drop]
      have harith : ((w :: ws).take (t + 1)).sum = w + (ws.take t).sum := by
        rw [List.take_succ_cons, List.sum_cons]
      rw [harith]
      rfl

/-- The `t`-th row block starts at the sum of the earlier heights. -/
theorem splitRows_getD : ∀ (hs : List ℕ) (gz : List (List ℚ)) (t : ℕ),
    t < hs.length →
      (splitRows gz hs).getD t [] =
        (gz.drop ((hs.take t).sum)).take (hs.getD t 0) := by
  intro hs
  induction hs with
  | nil => intro gz t ht; simp at ht
  | cons h hs ih =>
    intro gz t ht
    cases t with
    | zero => simp [splitRows]
    | succ t =>
      rw [List.length_cons, Nat.succ_lt_succ_iff] at ht
      show (splitRows (gz.drop h) hs).getD t [] = _
      rw [ih (gz.drop h) t ht, List.drop_drop]
      have harith : ((h :: hs).take (t + 1)).sum = h + (hs.take t).sum := by
        rw [List.take_succ_cons, List.sum_cons]
      rw [harith]
      rfl

/-- C9: for both stacking operators, the gradient for input `t` is the
output gradient (densified if it arrived sparse), sliced along the
concatenation axis from the sum of the earlier inputs' sizes for input
`t`'s size, converted to the operator's sparse format — when input `t`'s
dtype is continuous; an integer-typed input receives no gradient. -/
theorem stack_grad_slices (format : SpFormat) (dts : List DtypeKind)
    (ws : List ℕ) (gz : GzIn) (t : ℕ)
    (hlen : dts.length = ws.length) (ht : t < dts.length) :
    ((HStack_grad format dts ws gz).getD t none =
      if (dts.getD t .intLike).isContinuous then
        some (SparseFromDense_perform format (densifyGz gz).2
          ((densifyGz gz).1.map
            (fun r => (r.drop ((ws.take t).sum)).take (ws.getD t 0))))
      else none)
    ∧ ((VStack_grad format dts ws gz).getD t none =
      if (dts.getD t .intLike).isContinuous then
        some (SparseFromDense_perform format (densifyGz gz).2
          (((densifyGz gz).1.drop ((ws.take t).sum)).take (ws.getD t 0)))
      else none) := by
  have htw : t < ws.length := hlen ▸ ht
  constructor
  · show ((dts.zip ((splitCols (densifyGz gz).1 ws).map
        (fun s => SparseFromDense_perform format (densifyGz gz).2 s))).map
          (fun cd => if cd.1.isContinuous then some cd.2 else none)).getD t none = _
    have hzl : (dts.zip ((splitCols (densifyGz gz).1 ws).map
        (fun s => SparseFromDense_perform format (densifyGz gz).2 s))).length =
        dts.length := by
      rw [List.length_zip, List.length_map, splitCols_length, ← hlen, min_self]
    rw [List.getD_eq_getElem _ none (by rw [List.length_map, hzl]; exact ht),
      List.getElem_map, List.getElem_zip, List.getElem_map,
      ← List.getD_eq_getElem (splitCols (densifyGz gz).1 ws) []
        (by rw [splitCols_length]; exact htw),
      splitCols_getD ws (densifyGz gz).1 t htw,
      ← List.getD_eq_getElem dts .intLike ht]
  · show ((dts.zip ((splitRows (densifyGz gz).1 ws).map
        (fun s => SparseFromDense_perform format (densifyGz gz).2 s))).map
          (fun cd => if cd.1.isContinuous then some cd.2 else none)).getD t none = _
    have hzl : (dts.zip ((splitRows (densifyGz gz).1 ws).map
        (fun s => SparseFromDense_perform format (densifyGz gz).2 s))).length =
        dts.length := by
      rw [List.length_zip, List.length_map, splitRows_length, ← hlen, min_self]
    rw [List.getD_eq_getElem _ none (by rw [List.length_map, hzl]; exact ht),
      List.getElem_map, List.getElem_zip, List.getElem_map,
      ← List.getD_eq_getElem (splitRows (densifyGz gz).1 ws) []
        (by rw [splitRows_length]; exact htw),
      splitRows_getD ws (densifyGz gz).1 t htw,
      ← List.getD_eq_getElem dts .intLike ht]

/-- Witness for `stack_grad_slices`: a 2×4 dense gradient split over two
2-column inputs, the first float-typed (gets the first slice), the second
integer-typed (gets no gradient). -/
theorem stack_grad_slices_witness :
    (HStack_grad .csc [.floatLike, .intLike] [2, 2]
        (.denseIn [[1, 0, 2, 3], [0, 4, 0, 5]] "float64")).getD 0 none =
      some (SparseFromDense_perform .csc "float64"
        [[1, 0], [0, 4]])
    ∧ (HStack_grad .csc [.floatLike, .intLike] [2, 2]
        (.denseIn [[1, 0, 2, 3], [0, 4, 0, 5]] "float64")).getD 1 none = none := by
  have h0 := (stack_grad_slices .csc [.floatLike, .intLike] [2, 2]
    (.denseIn [[1, 0, 2, 3], [0, 4, 0, 5]] "float64") 0 (by decide) (by decide)).1
  have h1 := (stack_grad_slices .csc [.floatLike, .intLike] [2, 2]
    (.denseIn [[1, 0, 2, 3], [0, 4, 0, 5]] "float64") 1 (by decide) (by decide)).1
  constructor
  · rw [h0]
    rfl
  · rw [h1]
    rfl

end PyTensorSparse
